import Mathlib

/-!
Verification of the SQL-generation core of the gorm-oracle dialect.

Shallow embedding conventions used throughout this development:
  - Go strings are modelled as Lean strings; where the Go code indexes or
    measures bytes the identifiers involved are ASCII, so byte positions
    and character positions coincide and we use character lists.
  - Go machine integers that can overflow are modelled as Nat with an
    explicit modulus (the FNV-1a hash works mod 2^32).
  - External libraries (the strcase casing library) are modelled as
    function parameters; everything from the repository itself is
    translated definition by definition.
-/

namespace GormOracle

/-! ## Reserved words (reserved.go) -/

/-- The fixed Oracle reserved word list from reserved.go
(ReservedWordsList). -/
def ReservedWordsList : List String :=
  ["ACCESS", "ELSE", "MODIFY", "START",
   "ADD", "EXCLUSIVE", "NOAUDIT", "SELECT",
   "ALL", "EXISTS", "NOCOMPRESS", "SESSION",
   "ALTER", "FILE", "NOT", "SET",
   "AND", "FLOAT", "NOTFOUND", "SHARE",
   "ANY", "FOR", "NOWAIT", "SIZE",
   "ARRAYLEN", "FROM", "NULL", "SMALLINT",
   "AS", "GRANT", "NUMBER", "SQLBUF",
   "ASC", "GROUP", "OF", "SUCCESSFUL",
   "AUDIT", "HAVING", "OFFLINE", "SYNONYM",
   "BETWEEN", "IDENTIFIED", "ON", "SYSDATE",
   "BY", "IMMEDIATE", "ONLINE", "TABLE",
   "CHAR", "IN", "OPTION", "THEN",
   "CHECK", "INCREMENT", "OR", "TO",
   "CLUSTER", "INDEX", "ORDER", "TRIGGER",
   "COLUMN", "INITIAL", "PCTFREE", "UID",
   "COMMENT", "INSERT", "PRIOR", "UNION",
   "COMPRESS", "INTEGER", "PRIVILEGES", "UNIQUE",
   "CONNECT", "INTERSECT", "PUBLIC", "UPDATE",
   "CREATE", "INTO", "RAW", "USER",
   "CURRENT", "IS", "RENAME", "VALIDATE",
   "DATE", "LEVEL", "RESOURCE", "VALUES",
   "DECIMAL", "LIKE", "REVOKE", "VARCHAR",
   "DEFAULT", "LOCK", "ROW", "VARCHAR2",
   "DELETE", "LONG", "ROWID", "VIEW",
   "DESC", "MAXEXTENTS", "ROWLABEL", "WHENEVER",
   "DISTINCT", "MINUS", "ROWNUM", "WHERE",
   "DROP", "MODE", "ROWS", "WITH"]

/-- Model of Go strings.Split(v, sep) for a one-character separator:
splits on every occurrence, keeping empty fields. -/
def splitOnChar (sep : Char) : List Char → List (List Char)
  | [] => [[]]
  | c :: rest =>
    match splitOnChar sep rest with
    | [] => [[]]
    | word :: words =>
      if c = sep then [] :: word :: words else (c :: word) :: words

/-- IsReservedWord from reserved.go: split the input on single spaces and
test that every resulting word is a member of the reserved-word set (the
gods hashset Contains(parts...) returns true only when all arguments are
members).  Note that the source performs no case folding here. -/
def IsReservedWord (v : String) : Bool :=
  let parts := splitOnChar ' ' v.toList
  parts.all (fun p => ReservedWordsList.contains (String.mk p))

/-! ## Create path decision (create.go, function Create, lines 26-60) -/

/-- The two code paths the Create callback can take for a statement whose
SQL buffer is empty. -/
inductive CreatePath where
  | merge
  | insert
deriving DecidableEq

/-- The hasConflict refinement loop of Create: starting from whether an
ON CONFLICT clause is present, require a schema with a nonempty
PrimaryFields list, then clear the flag whenever some primary field's
DBName is missing from the create-values column names.  The schema is
modelled by its list of primary-key DB names (none = nil schema). -/
def resolveHasConflict (onConflict : Bool) (schema : Option (List String))
    (cols : List String) : Bool :=
  if onConflict then
    match schema with
    | some pks =>
      if pks.length > 0 then
        pks.foldl (fun hc f => if cols.contains f then hc else false) true
      else false
    | none => false
  else false

/-- The branch taken by Create: MergeCreate when the refined hasConflict
flag survives, otherwise the plain INSERT ... VALUES build. -/
def createPath (onConflict : Bool) (schema : Option (List String))
    (cols : List String) : CreatePath :=
  if resolveHasConflict onConflict schema cols then .merge else .insert

/-! ## Missing-WHERE safety (update.go checkMissingWhereConditions,
delete.go / update.go execution gate) -/

/-- The statement state consulted by checkMissingWhereConditions and by
the execution gate of the Update and Delete callbacks. -/
structure GDB where
  allowGlobalUpdate : Bool
  /-- the gorm error accumulator; none = no error recorded -/
  err : Option String
  /-- whether the clause map has a WHERE entry -/
  hasWhereClause : Bool
  /-- number of expressions of the WHERE clause (0 when the clause
  expression is not a Where value) -/
  whereExprs : Nat
  /-- whether the soft_delete_enabled marker clause is present -/
  softDeleteEnabled : Bool
  dryRun : Bool

/-- The error message of gorm.ErrMissingWhereClause. -/
def ErrMissingWhereClause : String := "WHERE conditions required"

/-- checkMissingWhereConditions from update.go: when global updates are
not allowed and no error is recorded yet, a WHERE clause counts as a
condition, except that with soft-delete enabled it must carry more than
one expression; otherwise gorm.ErrMissingWhereClause is added. -/
def checkMissingWhereConditions (db : GDB) : GDB :=
  if !db.allowGlobalUpdate && db.err == none then
    let withCondition := db.hasWhereClause
    let withCondition :=
      if withCondition && db.softDeleteEnabled then
        decide (db.whereExprs > 1)
      else withCondition
    if !withCondition then { db with err := some ErrMissingWhereClause }
    else db
  else db

/-- The execution gate shared by Update and Delete: ExecContext runs only
when the statement is not a dry run and no error is recorded. -/
def execGate (db : GDB) : Bool := !db.dryRun && db.err == none

/-- The tail of the Update/Delete callbacks: run the missing-WHERE check,
then report whether the statement would be executed. -/
def updateDeleteFlow (db : GDB) : GDB × Bool :=
  let db := checkMissingWhereConditions db
  (db, execGate db)

/-! ## WHERE IN chunking (oracle.go ClauseBuilders WHERE case and chunk) -/

/-- chunk from oracle.go for a positive chunk size m+1: repeatedly split
off the first m+1 elements while more than m+1 remain, then append the
nonempty remainder. -/
def chunkPos {V : Type} (l : List V) (m : Nat) : List (List V) :=
  if h : m + 1 < l.length then
    l.take (m + 1) :: chunkPos (l.drop (m + 1)) m
  else if 0 < l.length then [l] else []
termination_by l.length
decreasing_by
  simp only [List.length_drop]
  omega

/-- chunk from oracle.go.  The Go loop does not terminate for n = 0; the
only call site uses n = 1000, and the n = 0 case is mapped to []. -/
def chunk {V : Type} (l : List V) (n : Nat) : List (List V) :=
  match n with
  | 0 => []
  | m + 1 => chunkPos l m

/-- WHERE clause expressions as far as the IN-chunking branch of the
WHERE clause builder inspects them: an IN node with a column and a value
list, an OR combination, or some other expression the branch leaves
alone.  V is the type of the (opaque) bound values. -/
inductive WExpr (V : Type) where
  | inCond (column : String) (values : List V)
  | orCond (exprs : List (WExpr V))
  | other (tag : Nat)

/-- The clause.IN rewriting branch of the WHERE clause builder in
oracle.go: an IN with at most 1000 values is left alone (continue);
a larger one is replaced, in place, by the OR of the IN chunks over the
same column. -/
def rewriteInExpr {V : Type} (e : WExpr V) : WExpr V :=
  match e with
  | .inCond col vs =>
    if vs.length ≤ 1000 then .inCond col vs
    else .orCond ((chunk vs 1000).map (fun c => .inCond col c))
  | e => e

/-- The WHERE clause builder rewrites each expression of the clause at
its own index; positions are preserved. -/
def rewriteWhereExprs {V : Type} (exprs : List (WExpr V)) : List (WExpr V) :=
  exprs.map rewriteInExpr

/-! ## Value conversion layer (conversions.go) -/

/-- Go time.Time restricted to what conversions.go inspects: absolute
seconds and the nanosecond component (t.Nanosecond() is in [0, 1e9) for
a well-formed time). -/
structure GTime where
  sec : Int
  nsec : Nat
deriving DecidableEq

/-- Go time.Date applied with an out-of-range nanosecond argument:
the nanoseconds are normalized into the seconds. -/
def timeDate (t : GTime) (nanos : Nat) : GTime :=
  ⟨t.sec + (nanos / 1000000000 : Nat), nanos % 1000000000⟩

/-- trimFracTo from conversions.go: for 0 <= p <= 9 round the nanosecond
component half-up at scale 10^(9-p) and rebuild the time with time.Date;
outside that range return the time unchanged. -/
def trimFracTo (t : GTime) (p : Int) : GTime :=
  if p < 0 ∨ 9 < p then t
  else
    let scale := 10 ^ (9 - p).toNat
    let rounded := (t.nsec + scale / 2) / scale * scale
    timeDate t rounded

/-- Go values as far as convertValue distinguishes them after
reflectDereference: a nil that came from a pointer, a plain nil, and the
typed cases of the switch.  goRaw16 stands for any 16-byte-convertible
value, goOther for everything that falls through unchanged. -/
inductive GoVal where
  | goNilPtr
  | goNil
  | goBool (b : Bool)
  | goString (s : String)
  | goDeletedAt (valid : Bool) (t : GTime)
  | goTime (t : GTime)
  | goRaw16 (bytes : List Nat)
  | goOther (tag : Nat)
deriving DecidableEq

/-- Results of convertValue: a go_ora.Clob wrapper, a clause.Expr with
its SQL text and bound vars, plain integers (for bool), a pass-through
time, sql.NullTime, plain nil, or the untouched input value. -/
inductive ConvRes where
  | clobRes (s : String)
  | exprRes (sql : String) (vars : List GoVal)
  | intRes (n : Int)
  | timeRes (t : GTime)
  | nullTimeRes
  | plainNil
  | passRes (v : GoVal)
deriving DecidableEq

/-- Upper-casing as strings.ToUpper behaves on ASCII data (all data-type
names handled here are ASCII). -/
def asciiUpper (s : String) : String := String.mk (s.toList.map Char.toUpper)

/-- Go strings.HasPrefix. -/
def hasPrefixGo (s pre : String) : Bool := pre.toList.isPrefixOf s.toList

/-- The type names recognized by the switch of castNullExpr. -/
def castNullTypes : List String :=
  ["RAW(16)", "RAW(32)", "BLOB", "LONG RAW", "CHAR(1)", "VARCHAR2", "CLOB",
   "NCLOB", "NUMBER", "NUMBER(1)", "BINARY_FLOAT", "BINARY_DOUBLE", "FLOAT",
   "DATE", "TIMESTAMP", "TIMESTAMP WITH TIME ZONE",
   "TIMESTAMP WITH LOCAL TIME ZONE", "INTERVAL YEAR TO MONTH",
   "INTERVAL DAY TO SECOND", "XMLTYPE", "JSON"]

/-- castNullExpr from conversions.go: the empty type yields plain nil;
otherwise the upper-cased type yields a typed CAST(NULL AS T) when it is
in the recognized list or has the VARCHAR2( size form, and plain nil
otherwise. -/
def castNullExpr (t : String) : ConvRes :=
  if t = "" then .plainNil
  else
    let tu := asciiUpper t
    if castNullTypes.contains tu then
      .exprRes ("CAST(NULL AS " ++ tu ++ ")") []
    else if hasPrefixGo tu "VARCHAR2(" then
      .exprRes ("CAST(NULL AS " ++ tu ++ ")") []
    else .plainNil

/-- convertTime from conversions.go.  The first bound var of each
timestamp expression is the formatted time text; it is modelled by the
time value that is formatted (the trimmed one on the precision paths),
the fractional rendering itself being modelled by fracDigits below. -/
def convertTime (t : GTime) (typ : String) (prec : Int) : ConvRes :=
  if typ = "DATE" then
    .exprRes "CAST(TO_DATE(?, ?) AS DATE)"
      [.goTime t, .goString "YYYY-MM-DD\"T\"HH24:MI:SS"]
  else if typ = "TIMESTAMP" then
    let t2 := if 0 < prec then trimFracTo t prec else t
    let typ2 := if 0 < prec then "TIMESTAMP(" ++ toString prec ++ ")" else typ
    .exprRes ("CAST(TO_TIMESTAMP(?, ?) AS " ++ typ2 ++ ")")
      [.goTime t2, .goString "YYYY-MM-DD\"T\"HH24:MI:SS.FF6"]
  else if typ = "TIMESTAMP WITH TIME ZONE" then
    let t2 := if 0 < prec then trimFracTo t prec else t
    let typ2 := if 0 < prec then "TIMESTAMP(" ++ toString prec ++ ") WITH TIME ZONE"
      else typ
    .exprRes ("CAST(TO_TIMESTAMP_TZ(?, ?) AS " ++ typ2 ++ ")")
      [.goTime t2, .goString "YYYY-MM-DD\"T\"HH24:MI:SS.FF6TZH:TZM"]
  else if typ = "TIMESTAMP WITH LOCAL TIME ZONE" then
    let t2 := if 0 < prec then trimFracTo t prec else t
    let typ2 := if 0 < prec then
        "TIMESTAMP(" ++ toString prec ++ ") WITH LOCAL TIME ZONE"
      else typ
    .exprRes ("CAST(TO_TIMESTAMP_TZ(?, ?) AS " ++ typ2 ++ ")")
      [.goTime t2, .goString "YYYY-MM-DD\"T\"HH24:MI:SS.FF6TZH:TZM"]
  else .timeRes t

/-- Lower-case hex digit. -/
def hexLower (n : Nat) : Char := "0123456789abcdef".toList.getD n '0'

/-- Format bytes as %x does. -/
def bytesHex (bs : List Nat) : String :=
  String.mk ((bs.map (fun b => [hexLower (b / 16 % 16), hexLower (b % 16)])).flatten)

/-- convertRaw16 from conversions.go: a successful 16-byte extraction
yields HEXTORAW(?) over the hex text, failure the typed RAW null. -/
def convertRaw16 (bs : List Nat) : ConvRes :=
  if bs.length = 16 then .exprRes "HEXTORAW(?)" [.goString (bytesHex bs)]
  else .exprRes "CAST(NULL AS RAW(16))" []

/-- convertValue from conversions.go (lines 16-65). -/
def convertValue (val : GoVal) (dataType : String) (prec : Int)
    (notnull : Bool) : ConvRes :=
  match val with
  | .goNilPtr => castNullExpr dataType
  | .goNil => .plainNil
  | .goBool b => .intRes (if b then 1 else 0)
  | .goString x =>
    if 2000 < x.length then .clobRes x
    else if x.length = 0 then
      if notnull then .exprRes ("CAST(? AS " ++ dataType ++ ")") [.goString " "]
      else castNullExpr dataType
    else .exprRes ("CAST(? AS " ++ dataType ++ ")") [.goString x]
  | .goDeletedAt valid t =>
    if valid && !(t == ⟨0, 0⟩) then .timeRes t else .nullTimeRes
  | .goTime t => convertTime t dataType prec
  | .goRaw16 bs => convertRaw16 bs
  | .goOther _ => .passRes val

/-! ## Fractional-second rendering (Go layout ".999999") -/

/-- Decimal digit character. -/
def digCh (d : Nat) : Char := "0123456789".toList.getD (d % 10) '0'

/-- Fixed-width zero-padded decimal rendering (most significant digit
first); used with arguments below 10^width. -/
def padDigits : Nat → Nat → List Char
  | 0, _ => []
  | w + 1, n => padDigits w (n / 10) ++ [digCh (n % 10)]

/-- Remove trailing zero characters. -/
def stripTrailingZeros (l : List Char) : List Char :=
  ((l.reverse).dropWhile (fun c => c = '0')).reverse

/-- The fractional-second text a Go time with the given nanosecond
component gets under the layout ".999999": nanoseconds truncated to
microseconds, six zero-padded digits, trailing zeros removed. -/
def fracDigits (nsec : Nat) : List Char :=
  stripTrailingZeros (padDigits 6 (nsec / 1000))

/-- The three data types whose convertTime branch applies the precision
trim (DATE formats without fractional seconds). -/
def tsTypes : List String :=
  ["TIMESTAMP", "TIMESTAMP WITH TIME ZONE", "TIMESTAMP WITH LOCAL TIME ZONE"]

/-- The time value bound by a conversion result (the first var of a
timestamp expression, or a pass-through time). -/
def boundTime : ConvRes → Option GTime
  | .exprRes _ (GoVal.goTime t :: _) => some t
  | .timeRes t => some t
  | _ => none

/-- Round-half-up of a at scale s, as the specification reads. -/
def roundHalfUp (a s : Nat) : Nat := (a + s / 2) / s * s

/-- Spec-side reading of the recognized-type condition of castNullExpr,
used to phrase the amended C8. -/
def isRecognizedNullType (T : String) : Bool :=
  (T ≠ "" : Bool) &&
    (castNullTypes.contains (asciiUpper T) || hasPrefixGo (asciiUpper T) "VARCHAR2(")

/-! ## Naming strategy (naming.go): FNV hashing, identifier capping,
generated constraint/index names -/

/-- FNV-1a offset basis (hash/fnv, 32 bit). -/
def fnvOffsetBasis : Nat := 2166136261

/-- FNV-1a prime (hash/fnv, 32 bit). -/
def fnvPrime : Nat := 16777619

/-- 32-bit FNV-1a over a byte sequence: xor the byte in, then multiply by
the prime, modulo 2^32. -/
def fnv32 (bytes : List Nat) : Nat :=
  bytes.foldl (fun h b => ((h ^^^ b) * fnvPrime) % 4294967296) fnvOffsetBasis

/-- The bytes of a string (ASCII identifiers: one byte per char). -/
def strBytes (s : String) : List Nat := s.toList.map Char.toNat

/-- The upper-case hex digit table of shortenWithMax. -/
def hexDigitsUpper : List Char := "0123456789ABCDEF".toList

/-- Eight upper-case hex digits of a 32-bit value, most significant
first; this is both the hexValue helper of shortenWithMax and the
%08X formatting of genToken. -/
def hex8 (v : Nat) : String :=
  String.mk ((List.range 8).map
    (fun i => hexDigitsUpper.getD (v >>> (4 * (7 - i)) % 16) '0'))

/-- shortenWithMax from naming.go: a string within the cap is returned
unchanged; otherwise, with sufLen = 1 + 8, a cap of at most 9 yields the
bare hex digest and a larger cap yields the first maxLen-9 characters,
an underscore and the digest. -/
def shortenWithMax (s : String) (maxLen : Int) : String :=
  if (s.length : Int) ≤ maxLen then s
  else
    let hexValue := hex8 (fnv32 (strBytes s))
    if maxLen ≤ 9 then hexValue
    else String.mk (s.toList.take (maxLen - 9).toNat) ++ "_" ++ hexValue

/-- The PreferredCase enumeration of the naming strategy. -/
inductive Case where
  | screamingSnake
  | snake
  | camel
deriving DecidableEq

/-- The strcase library (external dependency) as the three casing
functions genToken consults through toCase. -/
structure StrCaseLib where
  toScreamingSnake : String → String
  toSnake : String → String
  toCamel : String → String

/-- The NamingStrategy configuration fields used by genToken and
shortenWithMax. -/
structure NamingStrategy where
  identifierMaxLength : Int
  preferredCase : Case
  namingCaseSensitive : Bool
  capIdentifierMaxLength : Int

/-- The maxLength resolution at the top of genToken and joinQualified:
a non-positive IdentifierMaxLength falls back to the detected cap. -/
def resolveMax (ns : NamingStrategy) : Int :=
  if ns.identifierMaxLength ≤ 0 then ns.capIdentifierMaxLength
  else ns.identifierMaxLength

/-- toCase from naming.go, delegating to the strcase library. -/
def toCase (sc : StrCaseLib) (ns : NamingStrategy) (part : String) : String :=
  match ns.preferredCase with
  | .screamingSnake => sc.toScreamingSnake part
  | .snake => sc.toSnake part
  | .camel => sc.toCamel part

/-- IsExplicitQuoted from naming.go: a part of length at least 2 that
begins and ends with a double quote yields its inner text. -/
def IsExplicitQuoted (part : String) : Option String :=
  let l := part.toList
  if 2 ≤ l.length ∧ l.head? = some '"' ∧ l.getLast? = some '"' then
    some (String.mk ((l.drop 1).dropLast))
  else none

/-- IsSafeOracleUnquoted from naming.go: nonempty, leading A-Z, only
A-Z 0-9 underscore dollar hash, and not a reserved word after
upper-casing. -/
def IsSafeOracleUnquoted (s : String) : Bool :=
  match s.toList with
  | [] => false
  | c0 :: _ =>
    (('A' ≤ c0 ∧ c0 ≤ 'Z' : Bool)) &&
    (s.toList.all (fun r =>
      (('A' ≤ r ∧ r ≤ 'Z') ∨ ('0' ≤ r ∧ r ≤ '9') ∨
        r = '_' ∨ r = '$' ∨ r = '#' : Bool))) &&
    !(IsReservedWord (asciiUpper s))

/-- dictCasePart from naming.go: explicit quotes give the exact inner;
snake and camel modes always quote, so the exact text; screaming-snake
mode gives UPPER(s) when that is safely unquotable and the exact text
otherwise. -/
def dictCasePart (ns : NamingStrategy) (s : String) : String :=
  match IsExplicitQuoted s with
  | some inner => inner
  | none =>
    match ns.preferredCase with
    | .snake => s
    | .camel => s
    | .screamingSnake =>
      let up := asciiUpper s
      if IsSafeOracleUnquoted up then up else s

/-- splitQualified from naming.go: split OWNER.TABLE on dots outside
double quotes, preserving the quote characters; a trailing builder is
flushed only when nonempty. -/
def splitQualifiedAux : List Char → Bool → List Char → List String → List String
  | [], _, b, acc => if 0 < b.length then acc ++ [String.mk b] else acc
  | r :: rest, quoted, b, acc =>
    if r = '"' then splitQualifiedAux rest (!quoted) (b ++ ['"']) acc
    else if r = '.' then
      if quoted then splitQualifiedAux rest quoted (b ++ ['.']) acc
      else splitQualifiedAux rest quoted [] (acc ++ [String.mk b])
    else splitQualifiedAux rest quoted (b ++ [r]) acc

/-- splitQualified entry point. -/
def splitQualified (input : String) : List String :=
  splitQualifiedAux input.toList false [] []

/-- dictQualifiedParts from naming.go: (owner, object, hasOwner). -/
def dictQualifiedParts (ns : NamingStrategy) (ident : String) :
    String × String × Bool :=
  match splitQualified ident with
  | [] => ("", "", false)
  | [x] => ("", dictCasePart ns x, false)
  | x :: y :: _ => (dictCasePart ns x, dictCasePart ns y, true)

/-- The human-readable base name KIND_OBJECT[_COL...] built by genToken
(the object argument here is already the dictionary-case object). -/
def genTokenBase (sc : StrCaseLib) (ns : NamingStrategy) (kind object : String)
    (cols : List String) : String :=
  cols.foldl (fun acc c => acc ++ "_" ++ toCase sc ns c)
    (kind ++ "_" ++ toCase sc ns object)

/-- The uniqueness seed OWNER.OBJECT|COL1|COL2|... hashed by genToken
(owner and object already in dictionary case). -/
def genSeed (ns : NamingStrategy) (owner object : String)
    (cols : List String) : String :=
  cols.foldl (fun acc c => acc ++ "|" ++ dictCasePart ns c)
    (owner ++ "." ++ object)

/-- genToken from naming.go (lines 248-299). -/
def genToken (sc : StrCaseLib) (ns : NamingStrategy) (kind tableOrObject : String)
    (cols : List String) : String :=
  let maxLength := resolveMax ns
  let dq := dictQualifiedParts ns tableOrObject
  let owner := dq.1
  let object := dq.2.1
  let baseObj := toCase sc ns object
  let base := genTokenBase sc ns kind object cols
  let seed := genSeed ns owner object cols
  let suffix := "_" ++ hex8 (fnv32 (strBytes seed))
  if (base.length : Int) ≤ maxLength then base
  else
    let maxObj := maxLength - ((kind.length : Int) + 1 + (suffix.length : Int))
    if maxObj < 1 then
      let name2 := kind ++ suffix
      if maxLength < (name2.length : Int) then
        String.mk (name2.toList.take maxLength.toNat)
      else name2
    else
      let maxObj2 := if (baseObj.length : Int) < maxObj then
          (baseObj.length : Int) else maxObj
      kind ++ "_" ++ String.mk (baseObj.toList.take maxObj2.toNat) ++ suffix

/-- An instance of the strcase library adequate for inputs that are
already single upper-case words (strcase.ToScreamingSnake is the
identity there), used for concrete evaluations. -/
def idStrCase : StrCaseLib := ⟨fun s => s, fun s => s, fun s => s⟩

/-- A concrete naming strategy: screaming-snake, 30-byte cap. -/
def ns30 : NamingStrategy := ⟨30, Case.screamingSnake, false, 30⟩

/-! ## Returnable fields (returning.go: isScalarOutType,
isReturnableField) -/

/-- Go types as far as isScalarOutType inspects them: reflect kinds of
interest, time.Time, byte slices, pointers, and opaque structs/others. -/
inductive GoType where
  | boolT
  | intT
  | int8T
  | int16T
  | int32T
  | int64T
  | uintT
  | uint8T
  | uint16T
  | uint32T
  | uint64T
  | uintptrT
  | float32T
  | float64T
  | stringT
  | interfaceT
  | timeT
  | sliceT (elem : GoType)
  | ptrT (t : GoType)
  | structT (id : Nat)
  | otherT (id : Nat)
deriving DecidableEq

/-- The pointer-stripping loop at the top of isScalarOutType. -/
def stripPtrs : GoType → GoType
  | .ptrT t => stripPtrs t
  | t => t

/-- Whether a type has reflect kind uint8 (the byte-slice element test). -/
def kindIsUint8 : GoType → Bool
  | .uint8T => true
  | _ => false

/-- isScalarOutType from returning.go: strip pointers; time.Time, types
implementing sql.Scanner (directly or through their pointer, modelled by
the scans parameter), the scalar reflect kinds including interface, and
byte slices are scalar out types. -/
def isScalarOutType (scans : GoType → Bool) (t : GoType) : Bool :=
  let t2 := stripPtrs t
  if t2 = .timeT then true
  else if scans t2 then true
  else
    match t2 with
    | .boolT | .intT | .int8T | .int16T | .int32T | .int64T
    | .uintT | .uint8T | .uint16T | .uint32T | .uint64T | .uintptrT
    | .float32T | .float64T | .stringT | .interfaceT => true
    | .sliceT e => kindIsUint8 e
    | _ => false

/-- The schema.Field attributes isReturnableField consults. -/
structure SchemaField where
  name : String
  dbName : String
  readable : Bool
  embedded : Bool
  fieldType : GoType
deriving DecidableEq

/-- isReturnableField from returning.go: a non-nil field with a database
name, readable, not an embedded-schema marker, whose type is a scalar
out type. -/
def isReturnableField (scans : GoType → Bool) (f : Option SchemaField) : Bool :=
  match f with
  | none => false
  | some f =>
    if f.dbName.length = 0 then false
    else if !f.readable then false
    else if f.embedded then false
    else isScalarOutType scans f.fieldType

/-- The type predicate exactly as the claim words it: a primitive (bool,
integer, unsigned, float, string), a byte slice, time.Time, a type with
the scalar-conversion trait, or a pointer to one of these -- without the
interface kind. -/
def specScalar (scans : GoType → Bool) : GoType → Bool
  | .ptrT u => specScalar scans u
  | t =>
    (match t with
     | .boolT | .intT | .int8T | .int16T | .int32T | .int64T
     | .uintT | .uint8T | .uint16T | .uint32T | .uint64T | .uintptrT
     | .float32T | .float64T | .stringT | .timeT => true
     | .sliceT e => kindIsUint8 e
     | _ => false) || scans t

/-- The field filter exactly as the claim words it. -/
def specReturnable (scans : GoType → Bool) (f : SchemaField) : Prop :=
  f.dbName ≠ "" ∧ f.readable = true ∧ f.embedded = false ∧
    specScalar scans f.fieldType = true

/-- A scans oracle under which nothing implements sql.Scanner. -/
def noScan : GoType → Bool := fun _ => false

/-- A readable interface-typed field with a database name. -/
def ifaceField : SchemaField := ⟨"V", "V", true, false, .interfaceT⟩

/-! ## MergeCreate SQL generation (create.go MergeCreate, lines 90-218),
modelled as the ordered list of text fragments written to the statement
buffer.  Identifier quoting goes through the dialect QuoteTo, modelled
by the function parameter q; bind placeholders are :n with n the
one-based position (gorm AddVar + oracle BindVarTo). -/

/-- A written fragment: fixed text written by the builders themselves
(lit), identifier/datatype-derived text (usr), or a bind placeholder. -/
inductive Frag where
  | lit (s : String)
  | usr (s : String)
  | ph (n : Nat)
deriving DecidableEq

/-- Decimal digits of a number (strconv.Itoa for naturals). -/
def natDigits (n : Nat) : List Char :=
  if h : n < 10 then [digCh n]
  else natDigits (n / 10) ++ [digCh (n % 10)]
termination_by n
decreasing_by
  exact Nat.div_lt_self (by omega) (by omega)

/-- The text of one fragment. -/
def renderFrag : Frag → List Char
  | .lit s => s.toList
  | .usr s => s.toList
  | .ph n => ':' :: natDigits n

/-- The SQL text of a fragment sequence. -/
def renderSQL (frags : List Frag) : List Char :=
  (frags.map renderFrag).flatten

/-- gorm clause.Expr.Build: write the expression SQL, replacing each ?
with the placeholder of the next appended var.  acc holds the pending
literal text reversed; n is the current var count. -/
def expandExprAux : List Char → Nat → List Char → List Frag × Nat
  | [], n, acc => ([.usr (String.mk acc.reverse)], n)
  | c :: rest, n, acc =>
    if c = '?' then
      let fs := expandExprAux rest (n + 1) []
      (.usr (String.mk acc.reverse) :: .ph (n + 1) :: fs.1, fs.2)
    else expandExprAux rest n (c :: acc)

/-- gorm Statement.AddVar on a conversion result: a clause.Expr writes
its SQL with placeholders substituted; every other value appends one var
and writes its placeholder. -/
def addVarFrags (n : Nat) (v : ConvRes) : List Frag × Nat :=
  match v with
  | .exprRes sql _ => expandExprAux sql.toList n []
  | _ => ([.ph (n + 1)], n + 1)

/-- The schema lookup of MergeCreate: LookUpField then DataTypeOf,
Precision, NotNull; a nil schema or missing field leaves the zero
values. -/
def convColumn (fi : String → Option (String × Int × Bool)) (c : String)
    (v : GoVal) : ConvRes :=
  match fi c with
  | some (dt, pr, nn) => convertValue v dt pr nn
  | none => convertValue v "" 0 false

/-- One USING row: comma-separated converted values, each aliased
AS quoted-column. -/
def rowValsFrags (q : String → String)
    (fi : String → Option (String × Int × Bool)) :
    List (String × GoVal) → Nat → Bool → List Frag × Nat
  | [], n, _ => ([], n)
  | cv :: rest, n, notFirst =>
    let vf := addVarFrags n (convColumn fi cv.1 cv.2)
    let rf := rowValsFrags q fi rest vf.2 true
    ((if notFirst then [Frag.lit ","] else []) ++ vf.1 ++
      [Frag.lit " AS ", Frag.usr (q cv.1)] ++ rf.1, rf.2)

/-- The USING subquery rows: SELECT ... FROM dummy, UNION ALL joined. -/
def rowsFrags (q : String → String)
    (fi : String → Option (String × Int × Bool)) (dummy : String) :
    List (List (String × GoVal)) → Nat → Bool → List Frag × Nat
  | [], n, _ => ([], n)
  | r :: rest, n, notFirst =>
    let rf := rowValsFrags q fi r n false
    let restf := rowsFrags q fi dummy rest rf.2 true
    ((if notFirst then [Frag.lit " UNION ALL "] else []) ++
      [Frag.lit "SELECT "] ++ rf.1 ++
      [Frag.lit " FROM ", Frag.usr dummy] ++ restf.1, restf.2)

/-- The ON clause: table.pk = excluded.pk equalities joined by AND
(clause.Where over clause.Eq with column values). -/
def onFrags (q : String → String) (table : String) :
    List String → Bool → List Frag
  | [], _ => []
  | f :: rest, notFirst =>
    (if notFirst then [Frag.lit " AND "] else []) ++
    [Frag.usr (q table), Frag.lit ".", Frag.usr (q f), Frag.lit " = ",
     Frag.usr (q "excluded"), Frag.lit ".", Frag.usr (q f)] ++
    onFrags q table rest true

/-- The WHEN MATCHED THEN UPDATE SET assignments (clause.Set build over
the converted DoUpdates). -/
def setFrags (q : String → String)
    (fi : String → Option (String × Int × Bool)) :
    List (String × GoVal) → Nat → Bool → List Frag × Nat
  | [], n, _ => ([], n)
  | cv :: rest, n, notFirst =>
    let vf := addVarFrags n (convColumn fi cv.1 cv.2)
    let rf := setFrags q fi rest vf.2 true
    ((if notFirst then [Frag.lit ","] else []) ++
      [Frag.usr (q cv.1), Frag.lit "="] ++ vf.1 ++ rf.1, rf.2)

/-- The auto-increment prioritized primary key is omitted from the
INSERT column and value lists. -/
def keepCol (ppk : Option (String × Bool)) (c : String) : Bool :=
  match ppk with
  | none => true
  | some (nm, ai) => !ai || !(nm == c)

/-- The WHEN NOT MATCHED THEN INSERT column list. -/
def insertColsFrags (q : String → String) (ppk : Option (String × Bool)) :
    List String → Bool → List Frag
  | [], _ => []
  | c :: rest, written =>
    if keepCol ppk c then
      (if written then [Frag.lit ","] else []) ++ [Frag.usr (q c)] ++
        insertColsFrags q ppk rest true
    else insertColsFrags q ppk rest written

/-- The VALUES list of excluded.column references. -/
def valuesColsFrags (q : String → String) (ppk : Option (String × Bool)) :
    List String → Bool → List Frag
  | [], _ => []
  | c :: rest, written =>
    if keepCol ppk c then
      (if written then [Frag.lit ","] else []) ++
        [Frag.usr (q "excluded"), Frag.lit ".", Frag.usr (q c)] ++
        valuesColsFrags q ppk rest true
    else valuesColsFrags q ppk rest written

/-- The inputs of MergeCreate: statement table, dialect dummy table,
create-values columns and rows, the schema lookup, the primary-key DB
names, the ON CONFLICT DoUpdates assignments, and the prioritized
primary key with its auto-increment flag. -/
structure MergeArgs where
  table : String
  dummyTable : String
  columns : List String
  rows : List (List GoVal)
  fieldInfo : String → Option (String × Int × Bool)
  pkFields : List String
  doUpdates : List (String × GoVal)
  prioritizedPK : Option (String × Bool)

/-- MergeCreate from create.go as its ordered fragment output. -/
def mergeCreateFrags (q : String → String) (a : MergeArgs) : List Frag :=
  let rowsF := rowsFrags q a.fieldInfo a.dummyTable
    (a.rows.map (fun r => a.columns.zip r)) 0 false
  let setF := setFrags q a.fieldInfo a.doUpdates rowsF.2 false
  [Frag.lit "MERGE INTO ", Frag.usr (q a.table), Frag.lit " USING ("] ++
  rowsF.1 ++
  [Frag.lit ") ", Frag.usr (q "excluded"), Frag.lit " ON ("] ++
  onFrags q a.table a.pkFields false ++
  [Frag.lit ")"] ++
  (if 0 < a.doUpdates.length then
    [Frag.lit " WHEN MATCHED THEN UPDATE SET "] ++ setF.1
   else []) ++
  [Frag.lit " WHEN NOT MATCHED THEN INSERT ("] ++
  insertColsFrags q a.prioritizedPK a.columns false ++
  [Frag.lit ") VALUES ("] ++
  valuesColsFrags q a.prioritizedPK a.columns false ++
  [Frag.lit ")"]

/-- The fixed texts MergeCreate and the gorm clause builders it calls
can write. -/
def litPool : List String :=
  ["MERGE INTO ", " USING (", " UNION ALL ", "SELECT ", ",", " AS ",
   " FROM ", ") ", " ON (", ".", " = ", " AND ", ")",
   " WHEN MATCHED THEN UPDATE SET ", "=",
   " WHEN NOT MATCHED THEN INSERT (", ") VALUES ("]

/-- The RETURNING keyword as characters. -/
def wRet : List Char := "RETURNING".toList

/-- A fragment text is safe when the RETURNING keyword does not occur in
it and it does not end with a proper nonempty prefix of the keyword (so
no occurrence can straddle a fragment boundary). -/
def SafeChunk (s : List Char) : Prop :=
  ¬ (wRet <:+: s) ∧ ∀ k, k < 9 → 0 < k → ¬ ((wRet.take k) <:+ s)

/-- The user-controlled fragment texts of a fragment list. -/
def usrStrings (frags : List Frag) : List String :=
  frags.filterMap (fun f => match f with | .usr s => some s | _ => none)

/-- A simple double-quoting dialect QuoteTo for concrete evaluations. -/
def quoteSimple (s : String) : String := "\"" ++ s ++ "\""

/-- Concrete MergeCreate arguments: one row over columns ID, NAME with a
VARCHAR2 schema entry for NAME and a matched-update on NAME. -/
def mergeArgsEx : MergeArgs :=
  ⟨"USERS", "DUAL", ["ID", "NAME"], [[GoVal.goOther 0, GoVal.goString "x"]],
   fun c => if c == "NAME" then some ("VARCHAR2(10)", (0 : Int), false) else none,
   ["ID"], [("NAME", GoVal.goString "y")], none⟩

/-- Every fixed-text fragment of a list comes from the MergeCreate
literal pool. -/
def LitsOK (fs : List Frag) : Prop :=
  ∀ s : String, Frag.lit s ∈ fs → s ∈ litPool

/-! ## Supporting lemmas -/

theorem resolveConflict_foldl (cols : List String) (pks : List String) :
    ∀ (acc : Bool),
      pks.foldl (fun hc f => if cols.contains f then hc else false) acc =
        (acc && pks.all (fun f => cols.contains f)) := by
  induction pks with
  | nil => intro acc; simp
  | cons p ps ih =>
    intro acc
    simp only [List.foldl_cons, List.all_cons]
    rw [ih]
    by_cases h : cols.contains p <;> simp [h, Bool.and_comm, Bool.and_assoc, Bool.and_left_comm]

theorem chunkPos_join {V : Type} (m : Nat) :
    ∀ (n : Nat) (l : List V), l.length ≤ n → (chunkPos l m).flatten = l := by
  intro n
  induction n with
  | zero =>
    intro l hl
    have : l = [] := by
      cases l with
      | nil => rfl
      | cons a t => simp at hl
    subst this
    rw [chunkPos]
    simp
  | succ k ih =>
    intro l hl
    rw [chunkPos]
    by_cases h : m + 1 < l.length
    · simp only [h, dif_pos]
      have hd : (l.drop (m + 1)).length ≤ k := by
        simp only [List.length_drop]; omega
      rw [List.flatten_cons, ih _ hd, List.take_append_drop]
    · simp only [h, dif_neg, not_false_iff]
      by_cases h0 : 0 < l.length
      · simp [h0]
      · have : l = [] := by
          cases l with
          | nil => rfl
          | cons a t => simp at h0
        simp [this]

theorem chunkPos_sizes {V : Type} (m : Nat) :
    ∀ (n : Nat) (l : List V), l.length ≤ n →
      ∀ c ∈ chunkPos l m, c.length ≤ m + 1 ∧ c ≠ [] := by
  intro n
  induction n with
  | zero =>
    intro l hl c hc
    have : l = [] := by
      cases l with
      | nil => rfl
      | cons a t => simp at hl
    subst this
    rw [chunkPos] at hc
    simp at hc
  | succ k ih =>
    intro l hl c hc
    rw [chunkPos] at hc
    by_cases h : m + 1 < l.length
    · simp only [h, dif_pos, List.mem_cons] at hc
      rcases hc with hc | hc
      · subst hc
        constructor
        · simp only [List.length_take]
          omega
        · intro hemp
          have := congrArg List.length hemp
          simp only [List.length_take, List.length_nil] at this
          omega
      · exact ih (l.drop (m + 1)) (by simp [List.length_drop]; omega) c hc
    · simp only [h, dif_neg, not_false_iff] at hc
      by_cases h0 : 0 < l.length
      · simp only [h0, if_pos, List.mem_singleton] at hc
        subst hc
        constructor
        · omega
        · intro hemp; subst hemp; simp at h0
      · simp [h0] at hc

theorem chunkPos_count {V : Type} (m : Nat) :
    ∀ (n : Nat) (l : List V), l.length ≤ n → 0 < l.length →
      (chunkPos l m).length = (l.length + m) / (m + 1) := by
  intro n
  induction n with
  | zero =>
    intro l hl h0
    omega
  | succ k ih =>
    intro l hl h0
    rw [chunkPos]
    by_cases h : m + 1 < l.length
    · simp only [h, dif_pos, List.length_cons]
      have hd : (l.drop (m + 1)).length ≤ k := by
        simp only [List.length_drop]; omega
      have hd0 : 0 < (l.drop (m + 1)).length := by
        simp only [List.length_drop]; omega
      rw [ih _ hd hd0]
      simp only [List.length_drop]
      have : l.length + m = (l.length - (m + 1) + m) + (m + 1) := by omega
      rw [this, Nat.add_div_right _ (by omega)]
    · simp only [h, dif_neg, not_false_iff, h0, if_pos, List.length_singleton]
      have h1 : l.length ≤ m + 1 := by omega
      have : (l.length + m) / (m + 1) = 1 := by
        apply Nat.div_eq_of_lt_le <;> omega
      omega

/-! ## Claim theorems (first group) -/

/-- C1: for every create statement carrying an ON CONFLICT clause, the
MERGE upsert path is taken if and only if the schema has at least one
primary-key field and every primary-key column database name appears
among the computed create-values columns; otherwise the statement is
built as a plain INSERT. -/
theorem resolveHasConflict_true_iff
    (schema : Option (List String)) (cols : List String) :
    resolveHasConflict true schema cols = true ↔
      ∃ pks, schema = some pks ∧ pks ≠ [] ∧ ∀ f ∈ pks, cols.contains f = true := by
  unfold resolveHasConflict
  cases schema with
  | none => simp
  | some pks =>
    simp only [if_true]
    by_cases hp : pks.length > 0
    · rw [if_pos hp, resolveConflict_foldl cols pks true]
      simp only [Bool.true_and, List.all_eq_true]
      constructor
      · intro h
        refine ⟨pks, rfl, ?_, h⟩
        intro hh; subst hh; simp at hp
      · rintro ⟨pks2, heq, _, hmem⟩
        injection heq with heq; subst heq; exact hmem
    · rw [if_neg hp]
      constructor
      · intro h; exact absurd h (by simp)
      · rintro ⟨pks2, heq, hne, _⟩
        injection heq with heq; subst heq
        exact absurd (List.length_pos.mpr hne) hp

/-- C1: for every create statement carrying an ON CONFLICT clause, the
MERGE upsert path is taken if and only if the schema has at least one
primary-key field and every primary-key column database name appears
among the computed create-values columns; otherwise the statement is
built as a plain INSERT. -/
theorem create_merge_path_iff :
    ∀ (schema : Option (List String)) (cols : List String),
      (createPath true schema cols = CreatePath.merge ↔
        ∃ pks, schema = some pks ∧ pks ≠ [] ∧ ∀ f ∈ pks, cols.contains f = true) ∧
      (createPath true schema cols ≠ CreatePath.merge →
        createPath true schema cols = CreatePath.insert) := by
  intro schema cols
  constructor
  · rw [← resolveHasConflict_true_iff schema cols]
    unfold createPath
    by_cases h : resolveHasConflict true schema cols <;> simp [h]
  · unfold createPath
    by_cases h : resolveHasConflict true schema cols <;> simp [h]

/-- C3: the WHERE clause builder leaves an IN node of at most 1000 values
unchanged, and replaces an IN node of N > 1000 values in place by a
disjunction of ceil(N/1000) IN nodes over the same column, each of at most
1000 values, whose in-order concatenation is the original value list. -/
theorem rewriteIn_chunk_spec (V : Type) (col : String) (vs : List V) :
    (vs.length ≤ 1000 → rewriteInExpr (WExpr.inCond col vs) = WExpr.inCond col vs) ∧
    (1000 < vs.length →
      rewriteInExpr (WExpr.inCond col vs) =
        WExpr.orCond ((chunk vs 1000).map (fun c => WExpr.inCond col c)) ∧
      (chunk vs 1000).length = (vs.length + 999) / 1000 ∧
      (∀ c ∈ chunk vs 1000, c.length ≤ 1000 ∧ c ≠ []) ∧
      (chunk vs 1000).flatten = vs) := by
  constructor
  · intro h
    simp [rewriteInExpr, h]
  · intro h
    have hnotle : ¬ vs.length ≤ 1000 := by omega
    refine ⟨by simp [rewriteInExpr, hnotle], ?_, ?_, ?_⟩
    · show (chunkPos vs 999).length = (vs.length + 999) / 1000
      exact chunkPos_count 999 vs.length vs le_rfl (by omega)
    · intro c hc
      exact chunkPos_sizes 999 vs.length vs le_rfl c hc
    · exact chunkPos_join 999 vs.length vs le_rfl

/-- C3 witness: a concrete 1001-element IN list is rewritten into two
chunks. -/
theorem rewriteIn_chunk_spec_witness :
    rewriteInExpr (WExpr.inCond "u" (List.replicate 1001 (0 : Nat))) =
      WExpr.orCond ((chunk (List.replicate 1001 (0 : Nat)) 1000).map
        (fun c => WExpr.inCond "u" c)) ∧
    (chunk (List.replicate 1001 (0 : Nat)) 1000).length = (1001 + 999) / 1000 ∧
    (chunk (List.replicate 1001 (0 : Nat)) 1000).flatten =
      List.replicate 1001 (0 : Nat) := by
  have h := (rewriteIn_chunk_spec Nat "u" (List.replicate 1001 (0 : Nat))).2
    (by simp only [List.length_replicate]; omega)
  refine ⟨h.1, ?_, h.2.2.2⟩
  have h21 := h.2.1
  rw [List.length_replicate] at h21
  exact h21

/-- C9: for an update or delete statement that does not opt in to global
updates and carries no error yet, if there is no effective WHERE
predicate (no WHERE clause at all, or only the soft-delete predicate),
then the missing-WHERE error is recorded and the statement is not
executed. -/
theorem missingWhere_blocks_execution :
    ∀ db : GDB,
      db.allowGlobalUpdate = false → db.err = none →
      (db.hasWhereClause = false ∨
        (db.softDeleteEnabled = true ∧ db.whereExprs ≤ 1)) →
      (updateDeleteFlow db).1.err = some ErrMissingWhereClause ∧
      (updateDeleteFlow db).2 = false := by
  intro db hglob herr hmiss
  have hcond : (!db.allowGlobalUpdate && (db.err == none)) = true := by
    rw [hglob, herr]; rfl
  have hwc : (if db.hasWhereClause && db.softDeleteEnabled then
      decide (db.whereExprs > 1) else db.hasWhereClause) = false := by
    rcases hmiss with h | ⟨hs, hn⟩
    · rw [h]; simp
    · rw [hs]
      cases hw : db.hasWhereClause
      · simp
      · simp only [Bool.true_and, if_pos]
        rw [decide_eq_false_iff_not]
        omega
  have hafter : (checkMissingWhereConditions db).err =
      some ErrMissingWhereClause := by
    unfold checkMissingWhereConditions
    simp only [hcond, if_true, hwc, Bool.not_false]
  refine ⟨hafter, ?_⟩
  show execGate (checkMissingWhereConditions db) = false
  unfold execGate
  rw [hafter]
  simp

/-- C9 witness: a concrete delete with no WHERE clause records the
missing-WHERE error and is not executed. -/
theorem missingWhere_blocks_execution_witness :
    (updateDeleteFlow
      { allowGlobalUpdate := false, err := none, hasWhereClause := false,
        whereExprs := 0, softDeleteEnabled := false, dryRun := false }).1.err =
      some ErrMissingWhereClause ∧
    (updateDeleteFlow
      { allowGlobalUpdate := false, err := none, hasWhereClause := false,
        whereExprs := 0, softDeleteEnabled := false, dryRun := false }).2 = false :=
  missingWhere_blocks_execution _ rfl rfl (Or.inl rfl)

/-- C10 counterexample: the reserved-word membership test does not
uppercase its input, so the lower-case spelling of the reserved word
SELECT is not recognized, contrary to the claim. -/
theorem isReservedWord_lowercase_select : IsReservedWord "select" = false := by
  decide

/-- C10 (amended): IsReservedWord splits its input on single spaces
without any case folding and returns whether every resulting word is a
case-sensitive member of the fixed reserved-word list; the upper-case
spelling SELECT is recognized while the lower-case spelling select is
not. -/
theorem isReservedWord_spec :
    (∀ v : String, IsReservedWord v = true ↔
      ∀ w ∈ splitOnChar ' ' v.toList,
        ReservedWordsList.contains (String.mk w) = true) ∧
    IsReservedWord "SELECT" = true ∧ IsReservedWord "select" = false := by
  refine ⟨?_, by decide, by decide⟩
  intro v
  simp [IsReservedWord, List.all_eq_true]

/-! ## Lemmas for the fractional-second bound -/

theorem padDigits_length (w : Nat) : ∀ n : Nat, (padDigits w n).length = w := by
  induction w with
  | zero => intro n; simp [padDigits]
  | succ k ih => intro n; simp [padDigits, ih]

theorem padDigits_mul_pow (a : Nat) :
    ∀ (b m : Nat), padDigits (a + b) (m * 10 ^ b) =
      padDigits a m ++ List.replicate b '0' := by
  intro b
  induction b with
  | zero => intro m; simp
  | succ k ih =>
    intro m
    have h1 : a + (k + 1) = (a + k) + 1 := by omega
    rw [h1]
    simp only [padDigits]
    have hdiv : m * 10 ^ (k + 1) / 10 = m * 10 ^ k := by
      rw [pow_succ, ← Nat.mul_assoc]
      exact Nat.mul_div_cancel _ (by norm_num)
    have hmod : m * 10 ^ (k + 1) % 10 = 0 := by
      rw [pow_succ, ← Nat.mul_assoc]
      exact Nat.mul_mod_left _ 10
    rw [hdiv, hmod, ih m]
    have : digCh 0 = '0' := rfl
    rw [this, List.append_assoc, ← List.replicate_succ' k '0']

theorem dropWhile_zero_append (b : Nat) (y : List Char) :
    List.dropWhile (fun c => c = '0') (List.replicate b '0' ++ y) =
      List.dropWhile (fun c => c = '0') y := by
  induction b with
  | zero => simp
  | succ k ih => simp [List.replicate_succ, List.dropWhile_cons, ih]

theorem strip_append_zeros (x : List Char) (b : Nat) :
    stripTrailingZeros (x ++ List.replicate b '0') = stripTrailingZeros x := by
  unfold stripTrailingZeros
  rw [List.reverse_append, List.reverse_replicate, dropWhile_zero_append]

theorem strip_length_le (l : List Char) :
    (stripTrailingZeros l).length ≤ l.length := by
  unfold stripTrailingZeros
  calc ((l.reverse.dropWhile (fun c => c = '0')).reverse).length
      = (l.reverse.dropWhile (fun c => c = '0')).length := List.length_reverse _
    _ ≤ l.reverse.length := (List.dropWhile_sublist _).length_le
    _ = l.length := List.length_reverse _

theorem fracDigits_length_le (ns pN : Nat) (h9 : ns < 1000000000)
    (hdvd : 10 ^ (9 - pN) ∣ ns) (hp1 : 1 ≤ pN) (hp9 : pN ≤ 9) :
    (fracDigits ns).length ≤ pN := by
  by_cases h6 : 6 ≤ pN
  · calc (fracDigits ns).length ≤ (padDigits 6 (ns / 1000)).length :=
        strip_length_le _
      _ = 6 := padDigits_length _ _
      _ ≤ pN := h6
  · push_neg at h6
    obtain ⟨m, hm⟩ := hdvd
    have hk : 9 - pN = (6 - pN) + 3 := by omega
    have hdiv : ns / 1000 = m * 10 ^ (6 - pN) := by
      subst hm
      rw [hk, pow_add]
      have : 10 ^ (6 - pN) * 10 ^ 3 * m = m * 10 ^ (6 - pN) * 1000 := by ring
      rw [this]
      exact Nat.mul_div_cancel _ (by norm_num)
    have hmlt : m < 10 ^ pN := by
      by_contra hge
      push_neg at hge
      have : 10 ^ (9 - pN) * 10 ^ pN ≤ 10 ^ (9 - pN) * m :=
        Nat.mul_le_mul_left _ hge
      rw [← pow_add] at this
      have h99 : 9 - pN + pN = 9 := by omega
      rw [h99] at this
      omega
    rw [fracDigits, hdiv]
    obtain ⟨b, hb⟩ : ∃ b, 6 - pN = b := ⟨_, rfl⟩
    rw [hb]
    rw [show (6 : Nat) = pN + b by omega, padDigits_mul_pow pN b m,
      strip_append_zeros]
    calc (stripTrailingZeros (padDigits pN m)).length
        ≤ (padDigits pN m).length := strip_length_le _
      _ = pN := padDigits_length _ _

theorem boundTime_ts (t : GTime) (p : Int) (typ : String) (ht : typ ∈ tsTypes) :
    boundTime (convertTime t typ p) =
      some (if 0 < p then trimFracTo t p else t) := by
  simp only [tsTypes, List.mem_cons, List.mem_singleton, List.not_mem_nil,
    or_false] at ht
  rcases ht with rfl | rfl | rfl <;>
    by_cases hp : 0 < p <;>
      simp [convertTime, boundTime, hp]

/-- C7: on the timestamp data types, a column precision p with 0 < p <= 9
makes convertTime bind the time trimmed by trimFracTo, whose total
nanoseconds are the round-half-up of the original at scale 10^(9-p), whose
nanosecond component is a multiple of that scale (at most p fractional
digits), and whose formatted fractional text has at most p digits; a
precision outside (0, 9] leaves the bound time value untouched. -/
theorem convertTime_precision_spec (t : GTime) (p : Int)
    (hn : t.nsec < 1000000000) :
    (0 < p → p ≤ 9 →
      (∀ typ ∈ tsTypes,
        boundTime (convertTime t typ p) = some (trimFracTo t p)) ∧
      ((trimFracTo t p).sec * 1000000000 + ((trimFracTo t p).nsec : Int) =
        t.sec * 1000000000 +
          (roundHalfUp t.nsec (10 ^ (9 - p).toNat) : Nat)) ∧
      10 ^ (9 - p).toNat ∣ (trimFracTo t p).nsec ∧
      ((fracDigits (trimFracTo t p).nsec).length : Int) ≤ p) ∧
    ((p ≤ 0 ∨ 9 < p) →
      ∀ typ ∈ tsTypes, boundTime (convertTime t typ p) = some t) := by
  constructor
  · intro hp0 hp9
    have hguard : ¬ (p < 0 ∨ 9 < p) := by omega
    have htrim : trimFracTo t p =
        timeDate t (roundHalfUp t.nsec (10 ^ (9 - p).toNat)) := by
      unfold trimFracTo roundHalfUp
      rw [if_neg hguard]
    refine ⟨?_, ?_, ?_, ?_⟩
    · intro typ ht
      rw [boundTime_ts t p typ ht, if_pos hp0]
    · rw [htrim]
      unfold timeDate
      have hdm := Nat.div_add_mod
        (roundHalfUp t.nsec (10 ^ (9 - p).toNat)) 1000000000
      push_cast
      omega
    · rw [htrim]
      unfold timeDate
      have hsr : 10 ^ (9 - p).toNat ∣ roundHalfUp t.nsec (10 ^ (9 - p).toNat) := by
        unfold roundHalfUp
        exact Nat.dvd_mul_left _ _
      have hs9 : 10 ^ (9 - p).toNat ∣ 1000000000 := by
        have : (1000000000 : Nat) = 10 ^ 9 := by norm_num
        rw [this]
        exact pow_dvd_pow 10 (by omega)
      exact (Nat.dvd_mod_iff hs9).mpr hsr
    · rw [htrim]
      unfold timeDate
      dsimp only
      have hlt : roundHalfUp t.nsec (10 ^ (9 - p).toNat) % 1000000000 <
          1000000000 := Nat.mod_lt _ (by norm_num)
      have hsr : 10 ^ (9 - p).toNat ∣ roundHalfUp t.nsec (10 ^ (9 - p).toNat) := by
        unfold roundHalfUp
        exact Nat.dvd_mul_left _ _
      have hs9 : 10 ^ (9 - p).toNat ∣ 1000000000 := by
        have : (1000000000 : Nat) = 10 ^ 9 := by norm_num
        rw [this]
        exact pow_dvd_pow 10 (by omega)
      have hdvd := (Nat.dvd_mod_iff hs9).mpr hsr
      have hpn : (9 : Nat) - p.toNat = (9 - p).toNat := by omega
      have hlen := fracDigits_length_le
        (roundHalfUp t.nsec (10 ^ (9 - p).toNat) % 1000000000) p.toNat hlt
        (by rw [hpn]; exact hdvd) (by omega) (by omega)
      omega
  · intro hout typ ht
    rw [boundTime_ts t p typ ht]
    rcases hout with hle | hgt
    · rw [if_neg (by omega)]
    · have : trimFracTo t p = t := by
        unfold trimFracTo
        rw [if_pos (Or.inr hgt)]
      rw [if_pos (by omega), this]

/-- C7 witness: precision 2 bounds the fractional text by two digits at a
concrete nanosecond value, and precision 12 leaves the time untouched. -/
theorem convertTime_precision_spec_witness :
    ((fracDigits (trimFracTo ⟨0, 123456789⟩ 2).nsec).length : Int) ≤ 2 ∧
    boundTime (convertTime ⟨0, 123456789⟩ "TIMESTAMP" 12) =
      some ⟨0, 123456789⟩ := by
  constructor
  · exact (((convertTime_precision_spec ⟨0, 123456789⟩ 2 (by norm_num)).1
      (by norm_num) (by norm_num)).2.2.2)
  · exact (convertTime_precision_spec ⟨0, 123456789⟩ 12 (by norm_num)).2
      (Or.inr (by norm_num)) "TIMESTAMP" (by simp [tsTypes])

/-- C8 counterexample: the empty string bound for a nullable NUMBER(5)
column yields plain untyped nil, not the typed NULL cast the claim
promises for every data type. -/
theorem convertValue_emptyNullable_counterexample :
    convertValue (.goString "") "NUMBER(5)" 0 false = ConvRes.plainNil ∧
    ConvRes.plainNil ≠ ConvRes.exprRes "CAST(NULL AS NUMBER(5))" [] := by
  constructor
  · decide
  · decide

/-- C8 (amended): a string longer than 2000 becomes a CLOB wrapper; the
empty string on a not-null column becomes CAST(? AS T) binding a single
space; the empty string on a nullable column becomes the typed NULL cast
CAST(NULL AS upper(T)) when T is a recognized Oracle type name (the fixed
list or a VARCHAR2(...) form) and plain untyped nil otherwise; any other
string becomes CAST(? AS T) binding the string itself. -/
theorem convertValue_string_spec (s T : String) (p : Int) (nn : Bool) :
    (2000 < s.length → convertValue (.goString s) T p nn = .clobRes s) ∧
    (s.length = 0 → nn = true →
      convertValue (.goString s) T p nn =
        .exprRes ("CAST(? AS " ++ T ++ ")") [.goString " "]) ∧
    (s.length = 0 → nn = false →
      convertValue (.goString s) T p nn = castNullExpr T ∧
      (isRecognizedNullType T = true →
        castNullExpr T = .exprRes ("CAST(NULL AS " ++ asciiUpper T ++ ")") []) ∧
      (isRecognizedNullType T = false → castNullExpr T = .plainNil)) ∧
    (0 < s.length → s.length ≤ 2000 →
      convertValue (.goString s) T p nn =
        .exprRes ("CAST(? AS " ++ T ++ ")") [.goString s]) := by
  refine ⟨?_, ?_, ?_, ?_⟩
  · intro h
    simp [convertValue, h]
  · intro h0 hnn
    subst hnn
    have hgt : ¬ 2000 < s.length := by omega
    simp [convertValue, h0, hgt]
  · intro h0 hnn
    subst hnn
    have hgt : ¬ 2000 < s.length := by omega
    refine ⟨by simp [convertValue, h0, hgt], ?_, ?_⟩
    · intro hrec
      unfold isRecognizedNullType at hrec
      unfold castNullExpr
      simp only [Bool.and_eq_true, Bool.or_eq_true, decide_eq_true_eq] at hrec
      rw [if_neg hrec.1]
      rcases hrec.2 with hc | hv
      · rw [if_pos hc]
      · by_cases hc : castNullTypes.contains (asciiUpper T)
        · rw [if_pos hc]
        · rw [if_neg hc, if_pos hv]
    · intro hrec
      unfold isRecognizedNullType at hrec
      unfold castNullExpr
      by_cases hT : T = ""
      · rw [if_pos hT]
      · simp only [hT, decide_not, Bool.and_eq_true, Bool.not_eq_true,
          decide_eq_false_iff_not, Bool.or_eq_true, not_or] at hrec
        rcases Bool.and_eq_false_iff.mp hrec with h1 | h2
        · exfalso
          revert h1
          simp [hT]
        · rw [if_neg hT]
          rcases Bool.or_eq_false_iff.mp h2 with ⟨hc, hv⟩
          rw [if_neg (by rw [hc]; exact Bool.false_ne_true),
            if_neg (by rw [hv]; exact Bool.false_ne_true)]
  · intro h1 h2
    have hne : ¬ s.length = 0 := by omega
    have hgt : ¬ 2000 < s.length := by omega
    simp [convertValue, hgt, hne]

/-- C8 witness: the four branches exercised at concrete inputs. -/
theorem convertValue_string_spec_witness :
    convertValue (.goString "x") "VARCHAR2(10)" 0 false =
      .exprRes ("CAST(? AS " ++ "VARCHAR2(10)" ++ ")") [.goString "x"] ∧
    convertValue (.goString "") "VARCHAR2(10)" 0 true =
      .exprRes ("CAST(? AS " ++ "VARCHAR2(10)" ++ ")") [.goString " "] ∧
    convertValue (.goString "") "VARCHAR2(10)" 0 false =
      castNullExpr "VARCHAR2(10)" := by
  refine ⟨?_, ?_, ?_⟩
  · exact (convertValue_string_spec "x" "VARCHAR2(10)" 0 false).2.2.2
      (by decide) (by decide)
  · exact (convertValue_string_spec "" "VARCHAR2(10)" 0 true).2.1 rfl rfl
  · exact ((convertValue_string_spec "" "VARCHAR2(10)" 0 false).2.2.1
      rfl rfl).1

/-! ## Lemmas for the naming layer -/

theorem toList_length (s : String) : s.toList.length = s.length := rfl

theorem hex8_length (v : Nat) : (hex8 v).length = 8 := by
  rw [hex8, String.length_mk]
  simp

/-- C5 counterexample: under a cap of 9 a too-long part is replaced by
the bare 8-hex digest, so the result has length 8, not the claimed
length 9, and it does not consist of first-cap-minus-9 characters plus
underscore plus digest. -/
theorem shortenWithMax_cap9_counterexample :
    (shortenWithMax "ABCDEFGHIJ" 9).length = 8 ∧ (8 : Nat) ≠ 9 := by
  constructor
  · decide
  · decide

/-- C5 (amended): a part within the cap is unchanged; for a cap m of at
least 10 a longer part becomes its first m-9 characters, an underscore
and the 8 upper-hex digits of the FNV-1a of the full pre-cap name, of
length exactly m; for a cap of at most 9 the result is the bare 8-hex
digest, of length 8; hence the result always fits any cap of at least 8. -/
theorem shortenWithMax_spec (s : String) (m : Int) :
    ((s.length : Int) ≤ m → shortenWithMax s m = s) ∧
    (9 < m → m < (s.length : Int) →
      shortenWithMax s m =
        String.mk (s.toList.take (m - 9).toNat) ++ "_" ++
          hex8 (fnv32 (strBytes s)) ∧
      ((shortenWithMax s m).length : Int) = m) ∧
    (m ≤ 9 → m < (s.length : Int) →
      shortenWithMax s m = hex8 (fnv32 (strBytes s)) ∧
      (shortenWithMax s m).length = 8) ∧
    (8 ≤ m → ((shortenWithMax s m).length : Int) ≤ m) := by
  refine ⟨?_, ?_, ?_, ?_⟩
  · intro h
    rw [shortenWithMax, if_pos h]
  · intro h9 hlen
    have hno : ¬ (s.length : Int) ≤ m := by omega
    have heq : shortenWithMax s m =
        String.mk (s.toList.take (m - 9).toNat) ++ "_" ++
          hex8 (fnv32 (strBytes s)) := by
      rw [shortenWithMax, if_neg hno]
      simp only [if_neg (by omega : ¬ m ≤ 9)]
    refine ⟨heq, ?_⟩
    rw [heq]
    rw [String.length_append, String.length_append, String.length_mk,
      List.length_take, hex8_length, toList_length]
    have h1 : (m - 9).toNat ≤ s.length := by omega
    have h2 : min (m - 9).toNat s.length = (m - 9).toNat := by omega
    rw [h2]
    have : (1 : Nat) = "_".length := rfl
    omega
  · intro h9 hlen
    have hno : ¬ (s.length : Int) ≤ m := by omega
    have heq : shortenWithMax s m = hex8 (fnv32 (strBytes s)) := by
      rw [shortenWithMax, if_neg hno]
      simp only [if_pos h9]
    exact ⟨heq, by rw [heq, hex8_length]⟩
  · intro h8
    by_cases hle : (s.length : Int) ≤ m
    · rw [shortenWithMax, if_pos hle]
      exact hle
    · push_neg at hle
      by_cases h9 : m ≤ 9
      · have heq : shortenWithMax s m = hex8 (fnv32 (strBytes s)) := by
          rw [shortenWithMax, if_neg (by omega : ¬ (s.length : Int) ≤ m)]
          simp only [if_pos h9]
        rw [heq, hex8_length]
        omega
      · push_neg at h9
        have hlen2 : ((shortenWithMax s m).length : Int) = m := by
          have hno : ¬ (s.length : Int) ≤ m := by omega
          have heq : shortenWithMax s m =
              String.mk (s.toList.take (m - 9).toNat) ++ "_" ++
                hex8 (fnv32 (strBytes s)) := by
            rw [shortenWithMax, if_neg hno]
            simp only [if_neg (by omega : ¬ m ≤ 9)]
          rw [heq]
          rw [String.length_append, String.length_append, String.length_mk,
            List.length_take, hex8_length, toList_length]
          have h1 : (m - 9).toNat ≤ s.length := by omega
          have h2 : min (m - 9).toNat s.length = (m - 9).toNat := by omega
          rw [h2]
          have : (1 : Nat) = "_".length := rfl
          omega
        omega

/-- C5 witness: cap 10 on a 12-character part gives the prefix-hash form
of length exactly 10; a part within the cap is unchanged. -/
theorem shortenWithMax_spec_witness :
    shortenWithMax "ABCDEFGHIJKL" 10 =
      String.mk ("ABCDEFGHIJKL".toList.take ((10 : Int) - 9).toNat) ++ "_" ++
        hex8 (fnv32 (strBytes "ABCDEFGHIJKL")) ∧
    ((shortenWithMax "ABCDEFGHIJKL" 10).length : Int) = 10 ∧
    shortenWithMax "AB" 30 = "AB" := by
  refine ⟨?_, ?_, ?_⟩
  · exact ((shortenWithMax_spec "ABCDEFGHIJKL" 10).2.1 (by norm_num)
      (by decide)).1
  · exact ((shortenWithMax_spec "ABCDEFGHIJKL" 10).2.1 (by norm_num)
      (by decide)).2
  · exact (shortenWithMax_spec "AB" 30).1 (by decide)

/-- C6 counterexample: a short generated name is returned as the bare
KIND_OBJECT_COLS base with no FNV8 suffix, so the claimed shape
KIND_OBJECT_COLS_FNV8 (with the hash of the dictionary-case seed) does
not hold for it. -/
theorem genToken_short_no_hash :
    genToken idStrCase ns30 "FK" "T" ["C"] = "FK_T_C" ∧
    ¬ (("_" ++ hex8 (fnv32 (strBytes (genSeed ns30 "" "T" ["C"])))).toList <:+
        (genToken idStrCase ns30 "FK" "T" ["C"]).toList) := by
  constructor
  · decide
  · decide

theorem genToken_eq (sc : StrCaseLib) (ns : NamingStrategy)
    (kind tableOrObject : String) (cols : List String) :
    genToken sc ns kind tableOrObject cols =
      (let M := resolveMax ns
       let dq := dictQualifiedParts ns tableOrObject
       let baseObj := toCase sc ns dq.2.1
       let base := genTokenBase sc ns kind dq.2.1 cols
       let suffix := "_" ++ hex8 (fnv32 (strBytes (genSeed ns dq.1 dq.2.1 cols)))
       if (base.length : Int) ≤ M then base
       else
         let maxObj := M - ((kind.length : Int) + 1 + (suffix.length : Int))
         if maxObj < 1 then
           let name2 := kind ++ suffix
           if M < (name2.length : Int) then String.mk (name2.toList.take M.toNat)
           else name2
         else
           let maxObj2 := if (baseObj.length : Int) < maxObj then
               (baseObj.length : Int) else maxObj
           kind ++ "_" ++ String.mk (baseObj.toList.take maxObj2.toNat) ++ suffix) :=
  rfl

/-- Any list is its n-take followed by the drop of that take's length. -/
theorem take_decomp {α : Type} (l : List α) (n : Nat) :
    l = l.take n ++ l.drop ((l.take n).length) := by
  rw [List.length_take]
  rcases Nat.le_total n l.length with h | h
  · rw [Nat.min_eq_left h, List.take_append_drop]
  · rw [Nat.min_eq_right h, List.drop_length, List.take_of_length_le h,
      List.append_nil]

/-- C6 (amended): genToken returns the plain base KIND_OBJECT[_COL...]
without any hash suffix whenever that base fits the resolved cap; when
the base exceeds the cap and the cap leaves room for KIND_ plus the
9-character suffix, it returns KIND_ followed by a prefix of the cased
object followed by _FNV8 of the dictionary-case seed OWNER.OBJECT|COLS;
in every case the result fits the resolved 30/128 cap. -/
theorem genToken_spec (sc : StrCaseLib) (ns : NamingStrategy)
    (kind tableOrObject : String) (cols : List String)
    (hmax : 0 ≤ resolveMax ns) :
    (((genToken sc ns kind tableOrObject cols).length : Int) ≤ resolveMax ns) ∧
    (((genTokenBase sc ns kind (dictQualifiedParts ns tableOrObject).2.1
          cols).length : Int) ≤ resolveMax ns →
      genToken sc ns kind tableOrObject cols =
        genTokenBase sc ns kind (dictQualifiedParts ns tableOrObject).2.1 cols) ∧
    (resolveMax ns < ((genTokenBase sc ns kind
          (dictQualifiedParts ns tableOrObject).2.1 cols).length : Int) →
      1 ≤ resolveMax ns - ((kind.length : Int) + 10) →
      ∃ pre : List Char,
        (toCase sc ns (dictQualifiedParts ns tableOrObject).2.1).toList =
          pre ++ ((toCase sc ns
            (dictQualifiedParts ns tableOrObject).2.1).toList.drop pre.length) ∧
        genToken sc ns kind tableOrObject cols =
          kind ++ "_" ++ String.mk pre ++
            ("_" ++ hex8 (fnv32 (strBytes (genSeed ns
              (dictQualifiedParts ns tableOrObject).1
              (dictQualifiedParts ns tableOrObject).2.1 cols))))) := by
  have hsufN : ("_" ++ hex8 (fnv32 (strBytes (genSeed ns
      (dictQualifiedParts ns tableOrObject).1
      (dictQualifiedParts ns tableOrObject).2.1 cols)))).length = 9 := by
    rw [String.length_append, hex8_length]
    rfl
  have h1u : ("_").length = 1 := rfl
  refine ⟨?_, ?_, ?_⟩
  · rw [genToken_eq]
    simp only []
    split_ifs with h1 h2 h3 h4
    · exact h1
    · rw [String.length_mk, List.length_take, toList_length]
      omega
    · omega
    · simp only [String.length_append, String.length_mk, List.length_take,
        toList_length, hsufN, h1u]
      omega
    · simp only [String.length_append, String.length_mk, List.length_take,
        toList_length, hsufN, h1u]
      omega
  · intro hfit
    rw [genToken_eq]
    simp only []
    rw [if_pos hfit]
  · intro hov hroom
    rw [genToken_eq]
    simp only []
    rw [if_neg (by omega : ¬ ((genTokenBase sc ns kind
      (dictQualifiedParts ns tableOrObject).2.1 cols).length : Int) ≤
        resolveMax ns)]
    rw [if_neg (show ¬ resolveMax ns - ((kind.length : Int) + 1 +
      (("_" ++ hex8 (fnv32 (strBytes (genSeed ns
        (dictQualifiedParts ns tableOrObject).1
        (dictQualifiedParts ns tableOrObject).2.1 cols)))).length : Int)) < 1
      by omega)]
    exact ⟨_, take_decomp _ _, rfl⟩

/-- C6 witness: the short name FK_T_C is returned as the bare base, and
a long table name is trimmed to KIND_ prefix _FNV8 within the 30 cap. -/
theorem genToken_spec_witness :
    ((genToken idStrCase ns30 "FK" "T" ["C"]).length : Int) ≤ resolveMax ns30 ∧
    genToken idStrCase ns30 "FK" "T" ["C"] =
      genTokenBase idStrCase ns30 "FK" (dictQualifiedParts ns30 "T").2.1 ["C"] ∧
    ∃ pre : List Char,
      (toCase idStrCase ns30
        (dictQualifiedParts ns30 "SOME_VERY_LONG_TABLE_NAME_HERE_X").2.1).toList =
        pre ++ ((toCase idStrCase ns30
          (dictQualifiedParts ns30
            "SOME_VERY_LONG_TABLE_NAME_HERE_X").2.1).toList.drop pre.length) ∧
      genToken idStrCase ns30 "FK" "SOME_VERY_LONG_TABLE_NAME_HERE_X"
          ["COLUMN_ONE"] =
        "FK" ++ "_" ++ String.mk pre ++
          ("_" ++ hex8 (fnv32 (strBytes (genSeed ns30
            (dictQualifiedParts ns30 "SOME_VERY_LONG_TABLE_NAME_HERE_X").1
            (dictQualifiedParts ns30 "SOME_VERY_LONG_TABLE_NAME_HERE_X").2.1
            ["COLUMN_ONE"])))) := by
  refine ⟨(genToken_spec idStrCase ns30 "FK" "T" ["C"] (by decide)).1,
    (genToken_spec idStrCase ns30 "FK" "T" ["C"] (by decide)).2.1 (by decide),
    (genToken_spec idStrCase ns30 "FK" "SOME_VERY_LONG_TABLE_NAME_HERE_X"
      ["COLUMN_ONE"] (by decide)).2.2 (by decide) (by decide)⟩

theorem string_length_eq_zero_iff (s : String) : s.length = 0 ↔ s = "" := by
  constructor
  · intro h
    cases s with
    | mk d =>
      have hd : d = [] := List.length_eq_zero.mp h
      subst hd
      rfl
  · intro h
    subst h
    rfl

theorem isScalarOut_ptr (scans : GoType → Bool) (u : GoType) :
    isScalarOutType scans (.ptrT u) = isScalarOutType scans u := by
  simp [isScalarOutType, stripPtrs]

theorem isScalarOut_characterization (scans : GoType → Bool) (t : GoType) :
    isScalarOutType scans t =
      (specScalar scans t || (stripPtrs t == .interfaceT)) := by
  induction t with
  | sliceT e ih =>
    cases e <;> simp [isScalarOutType, specScalar, stripPtrs, kindIsUint8]
  | ptrT u ih =>
    rw [isScalarOut_ptr, ih]
    rfl
  | structT i => simp [isScalarOutType, specScalar, stripPtrs]
  | otherT i => simp [isScalarOutType, specScalar, stripPtrs]
  | _ => simp [isScalarOutType, specScalar, stripPtrs]

/-- C4 counterexample: a readable interface-typed field with a database
name is selected by the code, but its type is in none of the claim's
type categories. -/
theorem returnable_interface_counterexample :
    isReturnableField noScan (some ifaceField) = true ∧
    ¬ specReturnable noScan ifaceField := by
  constructor
  · decide
  · intro h
    exact absurd h.2.2.2 (by decide)

/-- C4 (amended): a schema field is selected for RETURNING if and only
if it has a non-empty database name, is readable, is not an
embedded-struct marker, and its type is a primitive (bool, integer,
unsigned, float, string), a byte slice, time.Time, a scalar-convertible
type, a pointer to one of these, or an interface-kind type (possibly
behind pointers). -/
theorem isReturnableField_spec (scans : GoType → Bool) (f : SchemaField) :
    isReturnableField scans (some f) = true ↔
      (f.dbName ≠ "" ∧ f.readable = true ∧ f.embedded = false ∧
        (specScalar scans f.fieldType = true ∨
          stripPtrs f.fieldType = .interfaceT)) := by
  simp only [isReturnableField]
  by_cases h0 : f.dbName.length = 0
  · rw [if_pos h0]
    constructor
    · intro h; exact absurd h (by simp)
    · rintro ⟨hne, -, -, -⟩
      exact absurd ((string_length_eq_zero_iff _).mp h0) hne
  · rw [if_neg h0]
    by_cases hr : f.readable
    · rw [hr]
      by_cases he : f.embedded
      · simp [he]
      · simp only [he, Bool.false_eq_true, if_false, Bool.not_true, if_neg,
          Bool.true_eq_false]
        rw [isScalarOut_characterization]
        simp only [Bool.or_eq_true, beq_iff_eq]
        have he2 : f.embedded = false := by
          simp at he
          exact he
        constructor
        · intro h
          refine ⟨?_, by trivial, by trivial, h⟩
          intro hs
          exact h0 (by simp [hs])
        · rintro ⟨-, -, -, h⟩
          exact h
    · simp only [Bool.not_eq_true] at hr
      simp [hr]

/-! ## Lemmas for the MERGE SQL shape -/

instance (s : List Char) : Decidable (SafeChunk s) := by
  unfold SafeChunk
  infer_instance

theorem prefix_append_cases {α : Type} (w a b : List α) (h : w <+: a ++ b) :
    w <+: a ∨ (a <+: w ∧ w.drop a.length <+: b) := by
  rcases Nat.le_total w.length a.length with hl | hl
  · left
    exact List.prefix_of_prefix_length_le h (List.prefix_append a b) hl
  · right
    have ha : a <+: w :=
      List.prefix_of_prefix_length_le (List.prefix_append a b) h hl
    refine ⟨ha, ?_⟩
    obtain ⟨u, hu⟩ := ha
    obtain ⟨t, ht⟩ := h
    have hdrop : w.drop a.length = u := by
      rw [← hu, List.drop_left]
    rw [hdrop]
    have hassoc : a ++ (u ++ t) = a ++ b := by
      rw [← List.append_assoc, hu, ht]
    exact ⟨t, List.append_cancel_left hassoc⟩

theorem infix_append_cases {α : Type} (w : List α) :
    ∀ (a b : List α), w <:+: a ++ b →
      w <:+: a ∨ w <:+: b ∨
        ∃ k, 0 < k ∧ k < w.length ∧ ((w.take k) <:+ a) ∧ ((w.drop k) <+: b) := by
  intro a
  induction a with
  | nil =>
    intro b h
    right; left
    simpa using h
  | cons c a2 ih =>
    intro b h
    rw [List.cons_append] at h
    rcases List.infix_cons_iff.mp h with hpre | hinf
    · rw [← List.cons_append] at hpre
      rcases prefix_append_cases w (c :: a2) b hpre with h1 | ⟨h2, h3⟩
      · left
        obtain ⟨t, ht⟩ := h1
        exact ⟨[], t, by simpa using ht⟩
      · by_cases hlen : w.length ≤ (c :: a2).length
        · left
          have heq : c :: a2 = w :=
            h2.eq_of_length (le_antisymm h2.length_le hlen)
          rw [← heq]
        · push_neg at hlen
          right; right
          refine ⟨(c :: a2).length, by simp, hlen, ?_, h3⟩
          have htake : w.take (c :: a2).length = c :: a2 := by
            obtain ⟨u, hu⟩ := h2
            rw [← hu, List.take_left]
          rw [htake]
    · rcases ih b hinf with h1 | h2 | ⟨k, hk0, hkl, hsuf, hdrop⟩
      · left
        exact List.infix_cons h1
      · right; left
        exact h2
      · right; right
        exact ⟨k, hk0, hkl, hsuf.trans (List.suffix_cons c a2), hdrop⟩

theorem no_w_in_render (frags : List Frag)
    (h : ∀ f ∈ frags, SafeChunk (renderFrag f)) :
    ¬ (wRet <:+: renderSQL frags) := by
  induction frags with
  | nil =>
    intro hin
    rw [renderSQL, List.map_nil, List.flatten_nil] at hin
    have := List.eq_nil_of_infix_nil hin
    exact absurd this (by decide)
  | cons f fs ih =>
    intro hin
    rw [renderSQL, List.map_cons, List.flatten_cons] at hin
    rcases infix_append_cases wRet _ _ hin with h1 | h2 | ⟨k, hk0, hkl, hsuf, -⟩
    · exact (h f (List.mem_cons_self f fs)).1 h1
    · exact ih (fun g hg => h g (List.mem_cons_of_mem f hg)) h2
    · have h9 : wRet.length = 9 := by decide
      exact (h f (List.mem_cons_self f fs)).2 k (by omega) hk0 hsuf

theorem safe_of_no_wchar (s : List Char) (h : ∀ c ∈ s, c ∉ wRet) :
    SafeChunk s := by
  constructor
  · intro hinf
    exact h 'R' (hinf.subset (by decide)) (by decide)
  · intro k hk9 hk0 hsuf
    have hR : 'R' ∈ wRet.take k := by
      interval_cases k <;> decide
    exact h 'R' (hsuf.subset hR) (by decide)

theorem digCh_mem (d : Nat) : digCh d ∈ "0123456789".toList := by
  have hlt : d % 10 < 10 := Nat.mod_lt _ (by omega)
  unfold digCh
  set r := d % 10 with hr
  interval_cases r <;> decide

theorem natDigits_mem (n : Nat) : ∀ c ∈ natDigits n, c ∈ "0123456789".toList := by
  induction n using Nat.strong_induction_on with
  | _ n ih =>
    intro c hc
    rw [natDigits] at hc
    split at hc
    · rcases List.mem_singleton.mp hc with rfl
      exact digCh_mem n
    · rcases List.mem_append.mp hc with h1 | h2
      · exact ih (n / 10) (Nat.div_lt_self (by omega) (by omega)) c h1
      · rcases List.mem_singleton.mp h2 with rfl
        exact digCh_mem (n % 10)

theorem ph_safe (n : Nat) : SafeChunk (renderFrag (.ph n)) := by
  apply safe_of_no_wchar
  intro c hc
  have hdig : ∀ c ∈ ("0123456789".toList), c ∉ wRet := by decide
  rcases List.mem_cons.mp hc with rfl | hmem
  · decide
  · exact hdig c (natDigits_mem n c hmem)

theorem litPool_safe : ∀ s ∈ litPool, SafeChunk s.toList := by decide

theorem litsOK_nil : LitsOK [] := by
  intro s h
  simp at h

theorem litsOK_append {A B : List Frag} (h1 : LitsOK A) (h2 : LitsOK B) :
    LitsOK (A ++ B) := by
  intro s h
  rcases List.mem_append.mp h with h | h
  · exact h1 s h
  · exact h2 s h

theorem litsOK_cons_lit {s0 : String} {fs : List Frag} (hs : s0 ∈ litPool)
    (h : LitsOK fs) : LitsOK (Frag.lit s0 :: fs) := by
  intro s hmem
  rcases List.mem_cons.mp hmem with he | hm
  · injection he with he2
    subst he2
    exact hs
  · exact h s hm

theorem litsOK_cons_usr {u : String} {fs : List Frag} (h : LitsOK fs) :
    LitsOK (Frag.usr u :: fs) := by
  intro s hmem
  rcases List.mem_cons.mp hmem with he | hm
  · exact Frag.noConfusion he
  · exact h s hm

theorem litsOK_cons_ph {n : Nat} {fs : List Frag} (h : LitsOK fs) :
    LitsOK (Frag.ph n :: fs) := by
  intro s hmem
  rcases List.mem_cons.mp hmem with he | hm
  · exact Frag.noConfusion he
  · exact h s hm

theorem litsOK_ite {c : Prop} [Decidable c] {A B : List Frag}
    (h1 : LitsOK A) (h2 : LitsOK B) : LitsOK (if c then A else B) := by
  by_cases hc : c
  · rwa [if_pos hc]
  · rwa [if_neg hc]

theorem expand_litsOK :
    ∀ (l : List Char) (n : Nat) (acc : List Char),
      LitsOK (expandExprAux l n acc).1 := by
  intro l
  induction l with
  | nil =>
    intro n acc
    simp only [expandExprAux]
    exact litsOK_cons_usr litsOK_nil
  | cons c rest ih =>
    intro n acc
    by_cases hc : c = '?'
    · simp only [expandExprAux, hc, if_true]
      exact litsOK_cons_usr (litsOK_cons_ph (ih _ _))
    · simp only [expandExprAux, if_neg hc]
      exact ih _ _

theorem addVar_litsOK (n : Nat) (v : ConvRes) : LitsOK (addVarFrags n v).1 := by
  cases v <;>
    first
      | exact expand_litsOK _ _ _
      | exact litsOK_cons_ph litsOK_nil

theorem rowVals_litsOK (q : String → String)
    (fi : String → Option (String × Int × Bool)) :
    ∀ (r : List (String × GoVal)) (n : Nat) (nf : Bool),
      LitsOK (rowValsFrags q fi r n nf).1 := by
  intro r
  induction r with
  | nil =>
    intro n nf
    exact litsOK_nil
  | cons cv rest ih =>
    intro n nf
    simp only [rowValsFrags]
    refine litsOK_append ?_ (ih _ _)
    refine litsOK_append ?_
      (litsOK_cons_lit (by decide) (litsOK_cons_usr litsOK_nil))
    refine litsOK_append ?_ (addVar_litsOK _ _)
    exact litsOK_ite (litsOK_cons_lit (by decide) litsOK_nil) litsOK_nil

theorem rows_litsOK (q : String → String)
    (fi : String → Option (String × Int × Bool)) (dummy : String) :
    ∀ (rs : List (List (String × GoVal))) (n : Nat) (nf : Bool),
      LitsOK (rowsFrags q fi dummy rs n nf).1 := by
  intro rs
  induction rs with
  | nil =>
    intro n nf
    exact litsOK_nil
  | cons r rest ih =>
    intro n nf
    simp only [rowsFrags]
    refine litsOK_append ?_ (ih _ _)
    refine litsOK_append ?_
      (litsOK_cons_lit (by decide) (litsOK_cons_usr litsOK_nil))
    refine litsOK_append ?_ (rowVals_litsOK q fi _ _ _)
    refine litsOK_append ?_ (litsOK_cons_lit (by decide) litsOK_nil)
    exact litsOK_ite (litsOK_cons_lit (by decide) litsOK_nil) litsOK_nil

theorem on_litsOK (q : String → String) (table : String) :
    ∀ (fs : List String) (nf : Bool), LitsOK (onFrags q table fs nf) := by
  intro fs
  induction fs with
  | nil =>
    intro nf
    exact litsOK_nil
  | cons f rest ih =>
    intro nf
    simp only [onFrags]
    refine litsOK_append ?_ (ih _)
    refine litsOK_append ?_
      (litsOK_cons_usr (litsOK_cons_lit (by decide)
        (litsOK_cons_usr (litsOK_cons_lit (by decide)
          (litsOK_cons_usr (litsOK_cons_lit (by decide)
            (litsOK_cons_usr litsOK_nil)))))))
    exact litsOK_ite (litsOK_cons_lit (by decide) litsOK_nil) litsOK_nil

theorem set_litsOK (q : String → String)
    (fi : String → Option (String × Int × Bool)) :
    ∀ (us : List (String × GoVal)) (n : Nat) (nf : Bool),
      LitsOK (setFrags q fi us n nf).1 := by
  intro us
  induction us with
  | nil =>
    intro n nf
    exact litsOK_nil
  | cons cv rest ih =>
    intro n nf
    simp only [setFrags]
    refine litsOK_append ?_ (ih _ _)
    refine litsOK_append ?_ (addVar_litsOK _ _)
    refine litsOK_append ?_
      (litsOK_cons_usr (litsOK_cons_lit (by decide) litsOK_nil))
    exact litsOK_ite (litsOK_cons_lit (by decide) litsOK_nil) litsOK_nil

theorem insertCols_litsOK (q : String → String) (ppk : Option (String × Bool)) :
    ∀ (cs : List String) (w : Bool), LitsOK (insertColsFrags q ppk cs w) := by
  intro cs
  induction cs with
  | nil =>
    intro w
    exact litsOK_nil
  | cons c rest ih =>
    intro w
    rw [insertColsFrags]
    by_cases hk : keepCol ppk c
    · rw [if_pos hk]
      refine litsOK_append ?_ (ih _)
      refine litsOK_append ?_ (litsOK_cons_usr litsOK_nil)
      exact litsOK_ite (litsOK_cons_lit (by decide) litsOK_nil) litsOK_nil
    · rw [if_neg hk]
      exact ih _

theorem valuesCols_litsOK (q : String → String) (ppk : Option (String × Bool)) :
    ∀ (cs : List String) (w : Bool), LitsOK (valuesColsFrags q ppk cs w) := by
  intro cs
  induction cs with
  | nil =>
    intro w
    exact litsOK_nil
  | cons c rest ih =>
    intro w
    rw [valuesColsFrags]
    by_cases hk : keepCol ppk c
    · rw [if_pos hk]
      refine litsOK_append ?_ (ih _)
      refine litsOK_append ?_
        (litsOK_cons_usr (litsOK_cons_lit (by decide)
          (litsOK_cons_usr litsOK_nil)))
      exact litsOK_ite (litsOK_cons_lit (by decide) litsOK_nil) litsOK_nil
    · rw [if_neg hk]
      exact ih _

theorem mergeFrags_litsOK (q : String → String) (a : MergeArgs) :
    LitsOK (mergeCreateFrags q a) := by
  simp only [mergeCreateFrags]
  refine litsOK_append ?_ (litsOK_cons_lit (by decide) litsOK_nil)
  refine litsOK_append ?_ (valuesCols_litsOK q a.prioritizedPK _ _)
  refine litsOK_append ?_ (litsOK_cons_lit (by decide) litsOK_nil)
  refine litsOK_append ?_ (insertCols_litsOK q a.prioritizedPK _ _)
  refine litsOK_append ?_ (litsOK_cons_lit (by decide) litsOK_nil)
  refine litsOK_append ?_
    (litsOK_ite
      (litsOK_append (litsOK_cons_lit (by decide) litsOK_nil)
        (set_litsOK q a.fieldInfo _ _ _))
      litsOK_nil)
  refine litsOK_append ?_ (litsOK_cons_lit (by decide) litsOK_nil)
  refine litsOK_append ?_ (on_litsOK q a.table _ _)
  refine litsOK_append ?_
    (litsOK_cons_lit (by decide) (litsOK_cons_usr
      (litsOK_cons_lit (by decide) litsOK_nil)))
  refine litsOK_append ?_ (rows_litsOK q a.fieldInfo a.dummyTable _ _ _)
  exact litsOK_cons_lit (by decide) (litsOK_cons_usr
    (litsOK_cons_lit (by decide) litsOK_nil))

theorem mergeFrags_safe (q : String → String) (a : MergeArgs)
    (husr : ∀ s ∈ usrStrings (mergeCreateFrags q a), SafeChunk s.toList) :
    ∀ f ∈ mergeCreateFrags q a, SafeChunk (renderFrag f) := by
  intro f hf
  cases f with
  | lit s =>
    exact litPool_safe s (mergeFrags_litsOK q a s hf)
  | usr s =>
    apply husr
    exact List.mem_filterMap.mpr ⟨Frag.usr s, hf, rfl⟩
  | ph n =>
    exact ph_safe n

/-- C2: the SQL generated by MergeCreate always starts with MERGE INTO,
and -- provided no identifier, data type, or rendered value contains the
RETURNING keyword or a boundary-straddling piece of it -- the substring
" RETURNING " never occurs in it; only the non-upsert INSERT path can
append a RETURNING clause. -/
theorem mergeCreate_sql_spec (q : String → String) (a : MergeArgs)
    (husr : ∀ s ∈ usrStrings (mergeCreateFrags q a), SafeChunk s.toList) :
    ("MERGE INTO ".toList <+: renderSQL (mergeCreateFrags q a)) ∧
    ¬ (" RETURNING ".toList <:+: renderSQL (mergeCreateFrags q a)) := by
  constructor
  · obtain ⟨rest, hrest⟩ :
        ∃ rest, mergeCreateFrags q a = Frag.lit "MERGE INTO " :: rest :=
      ⟨_, rfl⟩
    rw [hrest, renderSQL, List.map_cons, List.flatten_cons]
    exact ⟨_, rfl⟩
  · intro hin
    have hw : wRet <:+: renderSQL (mergeCreateFrags q a) :=
      List.IsInfix.trans (by decide) hin
    exact no_w_in_render _ (mergeFrags_safe q a husr) hw

/-- C2 witness: a concrete one-row merge over columns ID, NAME with a
matched update; the rendered SQL starts with MERGE INTO and has no
RETURNING. -/
theorem mergeCreate_sql_spec_witness :
    ("MERGE INTO ".toList <+:
      renderSQL (mergeCreateFrags quoteSimple mergeArgsEx)) ∧
    ¬ (" RETURNING ".toList <:+:
      renderSQL (mergeCreateFrags quoteSimple mergeArgsEx)) :=
  mergeCreate_sql_spec quoteSimple mergeArgsEx (by decide)

end GormOracle
